import Mathlib

/-!
Verification of `yodas_cleansing.py`, an audio-dataset cleansing pipeline
(blind WADA SNR estimation → perceptual quality filtering → transcription,
plus a batch driver and a manifest merge step).

The numeric code is shallowly embedded in exact arithmetic: raw PCM and
float sample values are rationals (every finite machine float is a
rational), the SNR estimator's transcendental steps live in ℝ, and the
floating-point NaN sentinel is modelled by `Option` (`none` = NaN).
External models (the MOS quality predictor and the whisper transcriber)
are opaque function parameters.
-/

namespace YodasCleansing

/-! ## Data model -/

/-- The dtype of a raw sample buffer (`np.int16`, `np.int32`, or floating
point, which `preprocess_audio` leaves unscaled). -/
inductive Dtype
  | int16
  | int32
  | float
deriving DecidableEq

/-- A raw sample buffer: one- or two-dimensional, with a dtype.  Mirrors
the `item['audio']['array']` numpy array shapes the source handles. -/
inductive RawAudio
  | oneD (dt : Dtype) (samples : List ℚ)
  | twoD (dt : Dtype) (rows : List (List ℚ))
deriving DecidableEq

/-- One dataset record, with the fields the pipeline reads:
`item['id']`, `item['utt_id']`, `item['text']`, `item['audio']['array']`,
`item['audio']['sampling_rate']`, `item['audio']['path']`. -/
structure AudioItem where
  id : String
  utt_id : String
  text : String
  audio : RawAudio
  sampling_rate : ℕ
  path : String
deriving DecidableEq

/-- The terminal result dict built by `analyze_whisper` (lines 160–178). -/
structure ResultRecord where
  id : String
  uuid : String
  snr : ℝ
  score : ℝ
  transcription : String
  source_transcription : String
  path : String

/-! ## `preprocess_audio` (lines 52–63) -/

/-- Fixed-point scaling: int16 data is divided by
`np.iinfo(np.int16).max = 32767`, int32 data by
`np.iinfo(np.int32).max = 2147483647`; float data is left untouched. -/
def scaleSamples (dt : Dtype) (s : List ℚ) : List ℚ :=
  match dt with
  | .int16 => s.map (fun x => x / 32767)
  | .int32 => s.map (fun x => x / 2147483647)
  | .float => s

/-- `data.mean(axis=1)` applied to one row (one output element). -/
def rowMean (r : List ℚ) : ℚ := r.sum / r.length

/-- `preprocess_audio`: convert fixed-point data to float scale, then
collapse a two-dimensional buffer by averaging across axis 1. -/
def preprocess_audio : RawAudio → List ℚ
  | .oneD dt s => scaleSamples dt s
  | .twoD dt rows => (rows.map (scaleSamples dt)).map rowMean

/-! ## `wada_snr`: the lookup table (lines 77–78) -/

/-- `g_vals`, the 121 curve values from line 78, transcribed verbatim. -/
def g_valsQ : List ℚ :=
  [0.40974774, 0.40986926, 0.40998566, 0.40969089, 0.40986186, 0.40999006,
    0.41027138, 0.41052627, 0.41101024, 0.41143264, 0.41231718, 0.41337272,
    0.41526426, 0.4178192, 0.42077252, 0.42452799, 0.42918886, 0.43510373,
    0.44234195, 0.45161485, 0.46221153, 0.47491647, 0.48883809, 0.50509236,
    0.52353709, 0.54372088, 0.56532427, 0.58847532, 0.61346212, 0.63954496,
    0.66750818, 0.69583724, 0.72454762, 0.75414799, 0.78323148, 0.81240985,
    0.84219775, 0.87166406, 0.90030504, 0.92880418, 0.95655449, 0.9835349,
    1.01047155, 1.0362095, 1.06136425, 1.08579312, 1.1094819, 1.13277995,
    1.15472826, 1.17627308, 1.19703503, 1.21671694, 1.23535898, 1.25364313,
    1.27103891, 1.28718029, 1.30302865, 1.31839527, 1.33294817, 1.34700935,
    1.3605727, 1.37345513, 1.38577122, 1.39733504, 1.40856397, 1.41959619,
    1.42983624, 1.43958467, 1.44902176, 1.45804831, 1.46669568, 1.47486938,
    1.48269965, 1.49034339, 1.49748214, 1.50435106, 1.51076426, 1.51698915,
    1.5229097, 1.528578, 1.53389835, 1.5391211, 1.5439065, 1.54858517,
    1.55310776, 1.55744391, 1.56164927, 1.56566348, 1.56938671, 1.57307767,
    1.57654764, 1.57980083, 1.58304129, 1.58602496, 1.58880681, 1.59162477,
    1.5941969, 1.59693155, 1.599446, 1.60185011, 1.60408668, 1.60627134,
    1.60826199, 1.61004547, 1.61192472, 1.61369656, 1.61534074, 1.61688905,
    1.61838916, 1.61985374, 1.62135878, 1.62268119, 1.62390423, 1.62513143,
    1.62632463, 1.6274027, 1.62842767, 1.62945532, 1.6303307, 1.63128026,
    1.63204102]

/-- `db_vals = np.arange(-20, 101)`: entry `i` is `-20 + i`. -/
def db_val (i : ℕ) : ℝ := -20 + i

/-- The curve value at index `i`, as a real number. -/
noncomputable def gval (i : ℕ) : ℝ := ((g_valsQ.getD i 0 : ℚ) : ℝ)

/-- `np.where(g_vals < v3)[0].max()` restricted to indices below `n`:
the largest `i < n` with `gval i < v3`, if any. -/
noncomputable def snrIdxAux (v3 : ℝ) : ℕ → Option ℕ
  | 0 => none
  | n + 1 => if gval n < v3 then some n else snrIdxAux v3 n

/-- `wav_snr_idx` (lines 97–99): largest table index whose curve value is
strictly below `v3`, over the whole 121-entry table. -/
noncomputable def snrIdx (v3 : ℝ) : Option ℕ := snrIdxAux v3 121

/-- The table selection/interpolation step (lines 101–108). -/
noncomputable def tableLookup (v3 : ℝ) : ℝ :=
  match snrIdx v3 with
  | none => db_val 0
  | some i =>
      if i = 120 then db_val 120
      else db_val i +
        (v3 - gval i) / (gval (i + 1) - gval i) * (db_val (i + 1) - db_val i)

/-! ## `wada_snr`: statistics and final SNR (lines 80–117) -/

/-- `eps = 1e-10`. -/
noncomputable def eps : ℝ := 1e-10

/-- `abs(wav).max()` of a buffer (absolute values are nonnegative, so the
fold from `0` is the numpy maximum for nonempty buffers). -/
noncomputable def maxAbs (l : List ℝ) : ℝ := l.foldr (fun x m => max |x| m) 0

/-- numpy `.mean()`. -/
noncomputable def mean (l : List ℝ) : ℝ := l.sum / l.length

/-- `abs_wav = abs(wav); abs_wav[abs_wav < eps] = eps` (lines 85–86). -/
noncomputable def wadaAbsClip (w : List ℝ) : List ℝ :=
  w.map (fun x => if |x| < eps then eps else |x|)

/-- `v1 = max(eps, abs_wav.mean()); v2 = log(abs_wav).mean();
v3 = log(v1) - v2` (lines 90–94), as a function of the peak-normalized
buffer. -/
noncomputable def wadaV3 (w : List ℝ) : ℝ :=
  Real.log (max eps (mean (wadaAbsClip w))) - mean ((wadaAbsClip w).map Real.log)

/-- `dEng = sum(wav**2)` (line 111). -/
noncomputable def dEng (w : List ℝ) : ℝ := (w.map (fun x => x ^ 2)).sum

/-- Lines 112–115: split the total energy by the linear factor
`10**(wav_snr/10)` and return `10*log10(dSigEng/dNoiseEng)`. -/
noncomputable def finalSnr (e wav_snr : ℝ) : ℝ :=
  10 * Real.logb 10 ((e * (10 : ℝ) ^ (wav_snr / 10) / (1 + (10 : ℝ) ^ (wav_snr / 10))) /
    (e / (1 + (10 : ℝ) ^ (wav_snr / 10))))

/-- Everything `wada_snr` does after peak normalization. -/
noncomputable def wadaCore (w : List ℝ) : ℝ :=
  finalSnr (dEng w) (tableLookup (wadaV3 w))

/-- `wada_snr` (lines 65–117).  An empty buffer returns NaN (line 83),
modelled as `none`.  An all-zero buffer divides by zero at peak
normalization (`wav / abs(wav).max()`), which in the source propagates
NaN to the returned value; that is the `maxAbs wav = 0` branch. -/
noncomputable def wada_snr (wav : List ℝ) : Option ℝ :=
  if wav = [] then none
  else if maxAbs wav = 0 then none
  else some (wadaCore (wav.map (fun x => x / maxAbs wav)))

/-! ## Stage 1: `analyze_wada_snr` (lines 119–128) -/

/-- The SNR computed for one record:
`wada_snr(preprocess_audio(item['audio']['array']))`. -/
noncomputable def itemSnr (item : AudioItem) : Option ℝ :=
  wada_snr ((preprocess_audio item.audio).map (fun q => (q : ℝ)))

/-- The loop body of `analyze_wada_snr`: keep `(item, snr)` unless
`snr_threshold > snr or np.isnan(snr)` (line 125; NaN is `none`). -/
noncomputable def snrStep (thr : ℝ) (item : AudioItem) : Option (AudioItem × ℝ) :=
  match itemSnr item with
  | none => none
  | some s => if thr > s then none else some (item, s)

/-- Stage 1 over one partition (lines 119–128). -/
noncomputable def analyze_wada_snr (thr : ℝ) (part : List AudioItem) :
    List (AudioItem × ℝ) :=
  part.filterMap (snrStep thr)

/-! ## Stage 2: `analyze_mos` (lines 130–149) -/

/-- The quality stage.  The external MOS predictor is the opaque
`predict` parameter, applied to the preprocessed audio and the sampling
rate; `predict … = none` models a raised exception, which the stage
catches and drops (lines 147–148).  The incoming SNR may be NaN
(`Option.none`), guarded by `np.isnan` (line 139); a record is appended
only when `score >= score_threshold` (line 145). -/
noncomputable def mosStep (predict : List ℚ → ℕ → Option ℝ) (thr : ℝ)
    (p : AudioItem × Option ℝ) : Option (AudioItem × ℝ × ℝ) :=
  match p.2 with
  | none => none
  | some s =>
      match predict (preprocess_audio p.1.audio) p.1.sampling_rate with
      | none => none
      | some score => if score ≥ thr then some (p.1, s, score) else none

/-- Stage 2 over one partition (lines 130–149). -/
noncomputable def analyze_mos (predict : List ℚ → ℕ → Option ℝ) (thr : ℝ)
    (part : List (AudioItem × Option ℝ)) : List (AudioItem × ℝ × ℝ) :=
  part.filterMap (mosStep predict thr)

/-! ## Stage 3: `analyze_whisper` (lines 151–180) -/

/-- The transcription stage.  `transcribe` is the opaque whisper model,
applied to the raw sample array (the source casts it to float32, which
preserves sample values).  With `skip_whisper` set, the record's own
`text` is reused for both transcription fields. -/
def analyze_whisper (skip_whisper : Bool) (transcribe : RawAudio → String)
    (part : List (AudioItem × ℝ × ℝ)) : List ResultRecord :=
  part.map (fun t =>
    if !skip_whisper then
      { id := t.1.id, uuid := t.1.utt_id, snr := t.2.1, score := t.2.2,
        transcription := transcribe t.1.audio,
        source_transcription := t.1.text, path := t.1.path }
    else
      { id := t.1.id, uuid := t.1.utt_id, snr := t.2.1, score := t.2.2,
        transcription := t.1.text,
        source_transcription := t.1.text, path := t.1.path })

/-! ## Batch driver (lines 244–254) -/

/-- Python `range(start, stop, step)` for `step > 0` (the source always
passes `batch_size` as the step; `step = 0` raises in Python and is
modelled as the empty range). -/
def pyRange (start stop step : ℕ) : List ℕ :=
  List.range' start ((stop - start + step - 1) / step) step

/-- The loop bounds: for each `batch_start` of
`range(args.start, len(ds0), batch_size)`, the pair
`(batch_start, min(batch_start + batch_size - 1, len(ds0)))` (line 247). -/
def batchBounds (start n batch_size : ℕ) : List (ℕ × ℕ) :=
  (pyRange start n batch_size).map (fun bs => (bs, min (bs + batch_size - 1) n))

/-- The dataset indices one batch actually loads: the half-open slice
`train[batch_start:batch_end]` (line 249). -/
def sliceIndices (p : ℕ × ℕ) : List ℕ := List.range' p.1 (p.2 - p.1)

/-- Every dataset index processed across the whole run. -/
def coveredIndices (start n batch_size : ℕ) : List ℕ :=
  ((batchBounds start n batch_size).map sliceIndices).flatten

/-! ## Merge driver (lines 256–261) -/

/-- Concatenate each per-batch manifest file's content into the final
`esd.list`, in the order the files are listed. -/
def mergeFiles (files : List String) : String :=
  files.foldl (fun acc content => acc ++ content) ""

/-- The number of newline-terminated lines of a manifest file. -/
def lineCount (s : String) : ℕ := s.data.countP (fun c => c == '\n')

/-! ## Helper facts about `preprocess_audio` -/

/-- The maximum positive value of a fixed-point dtype (`1` for float). -/
def intTypeMax : Dtype → ℚ
  | .int16 => 32767
  | .int32 => 2147483647
  | .float => 1

lemma intTypeMax_pos (dt : Dtype) : 0 < intTypeMax dt := by
  cases dt <;> norm_num [intTypeMax]

lemma scaleSamples_eq (dt : Dtype) (hdt : dt ≠ Dtype.float) (s : List ℚ) :
    scaleSamples dt s = s.map (fun x => x / intTypeMax dt) := by
  cases dt with
  | int16 => rfl
  | int32 => rfl
  | float => exact absurd rfl hdt

lemma scaleSamples_abs_le (dt : Dtype) (hdt : dt ≠ Dtype.float) (s : List ℚ)
    (h : ∀ x ∈ s, |x| ≤ intTypeMax dt) : ∀ y ∈ scaleSamples dt s, |y| ≤ 1 := by
  intro y hy
  rw [scaleSamples_eq dt hdt] at hy
  obtain ⟨x, hx, rfl⟩ := List.mem_map.mp hy
  rw [abs_div, abs_of_pos (intTypeMax_pos dt), div_le_one (intTypeMax_pos dt)]
  exact h x hx

lemma abs_list_sum_le (r : List ℚ) : |r.sum| ≤ (r.map (fun x => |x|)).sum := by
  induction r with
  | nil => simp
  | cons a t ih =>
    simp only [List.sum_cons, List.map_cons]
    exact le_trans (abs_add a t.sum) (by linarith)

lemma abs_rowMean_le (r : List ℚ) (hr : r ≠ []) (h : ∀ x ∈ r, |x| ≤ 1) :
    |rowMean r| ≤ 1 := by
  unfold rowMean
  have hlen : (0 : ℚ) < r.length := by
    exact_mod_cast List.length_pos.mpr hr
  rw [abs_div, abs_of_pos hlen, div_le_one hlen]
  calc |r.sum| ≤ (r.map (fun x => |x|)).sum := abs_list_sum_le r
    _ ≤ (r.map (fun x => |x|)).length • (1 : ℚ) :=
        List.sum_le_card_nsmul _ 1 (by
          intro y hy
          obtain ⟨x, hx, rfl⟩ := List.mem_map.mp hy
          exact h x hx)
    _ = r.length := by simp

/-- C4 (amended): for 1-D or 2-D fixed-point input whose samples stay
within the dtype's maximum positive magnitude (so, excluding the most
negative representable value), every output sample has magnitude at
most 1. -/
theorem preprocess_audio_bounded (dt : Dtype) (hdt : dt ≠ Dtype.float) :
    (∀ s : List ℚ, (∀ x ∈ s, |x| ≤ intTypeMax dt) →
      ∀ y ∈ preprocess_audio (RawAudio.oneD dt s), |y| ≤ 1) ∧
    (∀ rows : List (List ℚ),
      (∀ r ∈ rows, r ≠ [] ∧ ∀ x ∈ r, |x| ≤ intTypeMax dt) →
      ∀ y ∈ preprocess_audio (RawAudio.twoD dt rows), |y| ≤ 1) := by
  constructor
  · intro s hs y hy
    exact scaleSamples_abs_le dt hdt s hs y hy
  · intro rows hrows y hy
    simp only [preprocess_audio, List.map_map, List.mem_map] at hy
    obtain ⟨r, hr, rfl⟩ := hy
    obtain ⟨hrne, hrbound⟩ := hrows r hr
    apply abs_rowMean_le
    · rw [scaleSamples_eq dt hdt]
      simpa using hrne
    · exact scaleSamples_abs_le dt hdt r hrbound

/-- Witness for the amended C4 theorem at an int16 buffer: the first
output sample of `preprocess_audio` on `[16000, -32767]` is bounded. -/
theorem preprocess_audio_bounded_witness : |(16000 / 32767 : ℚ)| ≤ 1 :=
  (preprocess_audio_bounded Dtype.int16 (by decide)).1 [16000, -32767] (by
    intro x hx
    simp only [List.mem_cons, List.not_mem_nil, or_false] at hx
    rcases hx with rfl | rfl
    · norm_num [intTypeMax]
    · norm_num [intTypeMax])
    (16000 / 32767)
    (show (16000 / 32767 : ℚ) ∈
        preprocess_audio (RawAudio.oneD Dtype.int16 [16000, -32767]) from
      List.mem_cons_self _ _)

/-- Counterexample to C4 as stated: the valid int16 sample `-32768`,
divided by `np.iinfo(np.int16).max = 32767`, has magnitude above 1. -/
theorem preprocess_audio_magnitude_counterexample :
    preprocess_audio (RawAudio.oneD Dtype.int16 [-32768]) = [-32768 / 32767] ∧
    1 < |(-32768 / 32767 : ℚ)| := by
  constructor
  · rfl
  · rw [abs_of_neg (by norm_num)]
    norm_num

/-! ## C8: passthrough transcription -/

/-- C8: in skip-transcription mode every produced `ResultRecord` reuses
the record's source text as both `transcription` and
`source_transcription`, with `id`, `uuid`, `snr`, `score` and `path`
carried over unchanged, one output per input in order. -/
theorem whisper_passthrough_spec (transcribe : RawAudio → String)
    (part : List (AudioItem × ℝ × ℝ)) :
    analyze_whisper true transcribe part =
      part.map (fun t =>
        { id := t.1.id, uuid := t.1.utt_id, snr := t.2.1, score := t.2.2,
          transcription := t.1.text, source_transcription := t.1.text,
          path := t.1.path }) := by
  simp [analyze_whisper]

/-! ## C9: manifest merge -/

/-- C9: merging two per-batch manifest files concatenates their contents
verbatim, and the merged line count is the sum of the files' newline
counts. -/
theorem merge_manifest_concat (f1 f2 : String) :
    mergeFiles [f1, f2] = f1 ++ f2 ∧
    lineCount (mergeFiles [f1, f2]) = lineCount f1 + lineCount f2 := by
  have h1 : mergeFiles [f1, f2] = f1 ++ f2 := by
    simp [mergeFiles]
  refine ⟨h1, ?_⟩
  rw [h1]
  unfold lineCount
  rw [String.data_append, List.countP_append]

/-! ## C3: batch driver index coverage -/

/-- C3 fails on the code: with dataset indices `[0, 4)` and batch size 2
the driver's two batches load slices `[0,1)` and `[2,3)`, so indices 1
and 3 are never processed; with batch size 1 nothing at all is
processed.  (`batch_end = min(batch_start + batch_size - 1, len(ds0))`
is used as the exclusive bound of the half-open slice
`train[batch_start:batch_end]`.) -/
theorem batch_driver_skips_indices :
    coveredIndices 0 4 2 = [0, 2] ∧
    1 ∉ coveredIndices 0 4 2 ∧ 3 ∉ coveredIndices 0 4 2 ∧
    coveredIndices 0 4 1 = [] := by
  decide

/-! ## The table selection: characterization of `snrIdx` -/

lemma snrIdxAux_eq_none {v3 : ℝ} :
    ∀ n, snrIdxAux v3 n = none ↔ ∀ j < n, ¬ gval j < v3
  | 0 => by simp [snrIdxAux]
  | n + 1 => by
    rw [snrIdxAux]
    by_cases h : gval n < v3
    · simp only [if_pos h]
      constructor
      · intro hc; cases hc
      · intro hall; exact absurd h (hall n (Nat.lt_succ_self n))
    · rw [if_neg h, snrIdxAux_eq_none n]
      constructor
      · intro hall j hj
        rcases Nat.lt_succ_iff_lt_or_eq.mp hj with hj1 | rfl
        · exact hall j hj1
        · exact h
      · intro hall j hj
        exact hall j (Nat.lt_succ_of_lt hj)

lemma snrIdxAux_eq_some {v3 : ℝ} :
    ∀ n i, snrIdxAux v3 n = some i →
      i < n ∧ gval i < v3 ∧ ∀ j, i < j → j < n → ¬ gval j < v3
  | 0, i => by simp [snrIdxAux]
  | n + 1, i => by
    rw [snrIdxAux]
    by_cases h : gval n < v3
    · rw [if_pos h]
      intro hi
      cases hi
      refine ⟨Nat.lt_succ_self n, h, ?_⟩
      intro j hj1 hj2
      omega
    · rw [if_neg h]
      intro hi
      obtain ⟨h1, h2, h3⟩ := snrIdxAux_eq_some n i hi
      refine ⟨Nat.lt_succ_of_lt h1, h2, ?_⟩
      intro j hj1 hj2
      rcases Nat.lt_succ_iff_lt_or_eq.mp hj2 with hj3 | rfl
      · exact h3 j hj1 hj3
      · exact h

lemma snrIdxAux_eq_some_of {v3 : ℝ} :
    ∀ n i, i < n → gval i < v3 → (∀ j, i < j → j < n → ¬ gval j < v3) →
      snrIdxAux v3 n = some i
  | 0, i => by intro h; exact absurd h (Nat.not_lt_zero i)
  | n + 1, i => by
    intro hin hi hmax
    rw [snrIdxAux]
    by_cases h : gval n < v3
    · have hn : i = n := by
        by_contra hne
        exact hmax n (by omega) (Nat.lt_succ_self n) h
      rw [if_pos h, hn]
    · have hi_n : i < n := by
        rcases Nat.lt_succ_iff_lt_or_eq.mp hin with h1 | rfl
        · exact h1
        · exact absurd hi h
      rw [if_neg h]
      exact snrIdxAux_eq_some_of n i hi_n hi
        (fun j hj1 hj2 => hmax j hj1 (Nat.lt_succ_of_lt hj2))

/-! ## Pointwise facts about the curve table -/

lemma g_valsQ_nonneg : ∀ q ∈ g_valsQ, 0 ≤ q := by
  simp only [g_valsQ, List.forall_mem_cons, List.forall_mem_nil]
  norm_num

lemma g_valsQ_length : g_valsQ.length = 121 := rfl

lemma gval_nonneg (i : ℕ) : 0 ≤ gval i := by
  unfold gval
  by_cases hi : i < g_valsQ.length
  · exact_mod_cast g_valsQ_nonneg _ (List.getD_eq_getElem g_valsQ 0 hi ▸
      List.getElem_mem hi)
  · rw [List.getD_eq_default g_valsQ 0 (le_of_not_lt hi)]
    norm_num

/-! ## The three branches of `tableLookup` -/

lemma tableLookup_of_no_idx {v3 : ℝ} (h : ∀ i < 121, ¬ gval i < v3) :
    tableLookup v3 = -20 := by
  have hidx : snrIdx v3 = none := (snrIdxAux_eq_none 121).mpr h
  unfold tableLookup
  rw [hidx]
  norm_num [db_val]

lemma tableLookup_of_last {v3 : ℝ} (h : gval 120 < v3) :
    tableLookup v3 = 100 := by
  have hidx : snrIdx v3 = some 120 :=
    snrIdxAux_eq_some_of 121 120 (by omega) h (fun j hj1 hj2 => by omega)
  unfold tableLookup
  rw [hidx]
  norm_num [db_val]

lemma tableLookup_of_interp {v3 : ℝ} {i : ℕ} (hi : i < 120) (hgi : gval i < v3)
    (hmax : ∀ j, i < j → j < 121 → ¬ gval j < v3) :
    tableLookup v3 =
      db_val i + (v3 - gval i) / (gval (i + 1) - gval i) *
        (db_val (i + 1) - db_val i) := by
  have hidx : snrIdx v3 = some i :=
    snrIdxAux_eq_some_of 121 i (by omega) hgi hmax
  unfold tableLookup
  rw [hidx]
  show (if i = 120 then db_val 120
    else db_val i + (v3 - gval i) / (gval (i + 1) - gval i) *
      (db_val (i + 1) - db_val i)) = _
  rw [if_neg (by omega : ¬ i = 120)]

/-- C1: the table lookup follows the spec's algorithm: with `i` the
largest of the 121 indices whose curve value is strictly below `v3`, the
result is the lowest dB value `-20` when no index qualifies, the highest
dB value `100` when `i` is the last entry, and otherwise the linear
interpolation between table entries `i` and `i + 1`. -/
theorem wada_table_lookup_spec (v3 : ℝ) :
    ((∀ i < 121, ¬ gval i < v3) → tableLookup v3 = -20) ∧
    (∀ i, i < 121 → gval i < v3 → (∀ j < 121, i < j → ¬ gval j < v3) →
      (i = 120 → tableLookup v3 = 100) ∧
      (i ≠ 120 → tableLookup v3 =
        db_val i + (v3 - gval i) / (gval (i + 1) - gval i) *
          (db_val (i + 1) - db_val i))) := by
  refine ⟨tableLookup_of_no_idx, ?_⟩
  intro i hi121 hgi hmax
  constructor
  · intro h120
    subst h120
    exact tableLookup_of_last hgi
  · intro h120
    exact tableLookup_of_interp (by omega) hgi
      (fun j hj1 hj2 => hmax j hj2 hj1)

lemma gval_119 : gval 119 = ((1.63128026 : ℚ) : ℝ) := rfl

lemma gval_120 : gval 120 = ((1.63204102 : ℚ) : ℝ) := rfl

/-- Witness for C1, exercising all three branches: `v3 = 0` is below the
whole curve, `v3 = 2` is above it, and `v3 = 1.632` falls between table
entries 119 and 120. -/
theorem wada_table_lookup_spec_witness :
    tableLookup 0 = -20 ∧ tableLookup 2 = 100 ∧
    tableLookup 1.632 = db_val 119 + ((1.632 : ℝ) - gval 119) /
      (gval 120 - gval 119) * (db_val 120 - db_val 119) := by
  refine ⟨?_, ?_, ?_⟩
  · exact (wada_table_lookup_spec 0).1
      (fun i _ hlt => absurd hlt (not_lt.mpr (gval_nonneg i)))
  · have h120 : gval 120 < 2 := by
      rw [gval_120]
      norm_num
    exact ((wada_table_lookup_spec 2).2 120 (by omega) h120
      (fun j hj1 hj2 => by omega)).1 rfl
  · have h119 : gval 119 < 1.632 := by
      rw [gval_119]
      norm_num
    have hmax : ∀ j < 121, 119 < j → ¬ gval j < 1.632 := by
      intro j hj hgt hlt
      have hj120 : j = 120 := by omega
      rw [hj120, gval_120] at hlt
      norm_num at hlt
    exact ((wada_table_lookup_spec 1.632).2 119 (by omega) h119 hmax).2 (by omega)

/-! ## Range of the table lookup -/

lemma tableLookup_range (v3 : ℝ) : -20 ≤ tableLookup v3 ∧ tableLookup v3 ≤ 100 := by
  cases hidx : snrIdx v3 with
  | none =>
    have h := (snrIdxAux_eq_none 121).mp hidx
    rw [tableLookup_of_no_idx h]
    norm_num
  | some i =>
    obtain ⟨hi121, hgi, hmax⟩ := snrIdxAux_eq_some 121 i hidx
    by_cases h120 : i = 120
    · subst h120
      rw [tableLookup_of_last hgi]
      norm_num
    · have hi : i < 120 := by omega
      rw [tableLookup_of_interp hi hgi hmax]
      have hnext : v3 ≤ gval (i + 1) :=
        le_of_not_lt (hmax (i + 1) (Nat.lt_succ_self i) (by omega))
      have hden : 0 < gval (i + 1) - gval i := by linarith
      have ht1 : (v3 - gval i) / (gval (i + 1) - gval i) ≤ 1 := by
        rw [div_le_one hden]
        linarith
      have ht0 : 0 < (v3 - gval i) / (gval (i + 1) - gval i) :=
        div_pos (by linarith) hden
      have hdb1 : db_val (i + 1) - db_val i = 1 := by
        unfold db_val
        push_cast
        ring
      rw [hdb1, mul_one]
      unfold db_val
      have h0i : (0 : ℝ) ≤ (i : ℝ) := Nat.cast_nonneg i
      have hi119 : (i : ℝ) ≤ 119 := by exact_mod_cast (by omega : i ≤ 119)
      constructor
      · linarith
      · linarith

/-! ## The final energy-partition step cancels to the table value -/

lemma finalSnr_eq (e w : ℝ) (he : 0 < e) : finalSnr e w = w := by
  unfold finalSnr
  have hF : 0 < (10 : ℝ) ^ (w / 10) := Real.rpow_pos_of_pos (by norm_num) _
  have h1F : (0 : ℝ) < 1 + (10 : ℝ) ^ (w / 10) := by linarith
  have harg : e * (10 : ℝ) ^ (w / 10) / (1 + (10 : ℝ) ^ (w / 10)) /
      (e / (1 + (10 : ℝ) ^ (w / 10))) = (10 : ℝ) ^ (w / 10) := by
    field_simp
  rw [harg, Real.logb_rpow (by norm_num) (by norm_num)]
  ring

/-! ## Peak normalization -/

lemma maxAbs_nil : maxAbs ([] : List ℝ) = 0 := rfl

lemma maxAbs_cons (a : ℝ) (t : List ℝ) : maxAbs (a :: t) = max |a| (maxAbs t) := rfl

lemma maxAbs_nonneg (l : List ℝ) : 0 ≤ maxAbs l := by
  induction l with
  | nil => exact le_refl 0
  | cons a t ih =>
    rw [maxAbs_cons]
    exact le_trans ih (le_max_right _ _)

lemma maxAbs_map_mul (c : ℝ) (hc : 0 ≤ c) (l : List ℝ) :
    maxAbs (l.map (fun x => c * x)) = c * maxAbs l := by
  induction l with
  | nil => simp [maxAbs_nil]
  | cons a t ih =>
    rw [List.map_cons, maxAbs_cons, maxAbs_cons, ih, abs_mul,
      abs_of_nonneg hc, mul_max_of_nonneg _ _ hc]

lemma maxAbs_eq_zero_of_all_zero {l : List ℝ} (h : ∀ x ∈ l, x = 0) :
    maxAbs l = 0 := by
  induction l with
  | nil => rfl
  | cons a t ih =>
    rw [maxAbs_cons, h a (List.mem_cons_self a t),
      ih (fun x hx => h x (List.mem_cons_of_mem a hx))]
    simp

lemma exists_ne_zero_of_maxAbs_ne_zero {l : List ℝ} (h : maxAbs l ≠ 0) :
    ∃ x ∈ l, x ≠ 0 := by
  by_contra hc
  push_neg at hc
  exact h (maxAbs_eq_zero_of_all_zero hc)

lemma dEng_pos {l : List ℝ} {x : ℝ} (hx : x ∈ l) (hx0 : x ≠ 0) : 0 < dEng l := by
  unfold dEng
  have hmem : x ^ 2 ∈ l.map (fun y => y ^ 2) := List.mem_map_of_mem _ hx
  have hpos : 0 < x ^ 2 := by positivity
  have hle : x ^ 2 ≤ (l.map (fun y => y ^ 2)).sum := by
    refine List.single_le_sum ?_ _ hmem
    intro y hy
    obtain ⟨z, hz, rfl⟩ := List.mem_map.mp hy
    positivity

  linarith

/-! ## C10: the returned SNR is the interpolated table value -/

/-- C10: for a non-empty, non-silent buffer, the energy-partition step
cancels algebraically, so `wada_snr` returns exactly the interpolated
table dB value computed from `v3`, and every defined output lies in
`[-20, 100]`. -/
theorem wada_snr_in_range (wav : List ℝ) (hne : wav ≠ [])
    (hmax : maxAbs wav ≠ 0) :
    wada_snr wav =
      some (tableLookup (wadaV3 (wav.map (fun x => x / maxAbs wav)))) ∧
    ∀ s, wada_snr wav = some s → -20 ≤ s ∧ s ≤ 100 := by
  have key : wada_snr wav =
      some (wadaCore (wav.map (fun x => x / maxAbs wav))) := by
    unfold wada_snr
    rw [if_neg hne, if_neg hmax]
  obtain ⟨x, hx, hx0⟩ := exists_ne_zero_of_maxAbs_ne_zero hmax
  have hxw : x / maxAbs wav ∈ wav.map (fun y => y / maxAbs wav) :=
    List.mem_map_of_mem _ hx
  have hE : 0 < dEng (wav.map fun y => y / maxAbs wav) :=
    dEng_pos hxw (div_ne_zero hx0 hmax)
  have hcore : wadaCore (wav.map fun y => y / maxAbs wav) =
      tableLookup (wadaV3 (wav.map fun y => y / maxAbs wav)) := by
    unfold wadaCore
    exact finalSnr_eq _ _ hE
  refine ⟨by rw [key, hcore], ?_⟩
  intro s hs
  rw [key, hcore] at hs
  rw [← Option.some.inj hs]
  exact tableLookup_range _

/-- Witness for C10 at the unit buffer `[1]`. -/
theorem wada_snr_in_range_witness :
    wada_snr [1] =
      some (tableLookup (wadaV3 ([(1 : ℝ)].map (fun x => x / maxAbs [1])))) ∧
    -20 ≤ tableLookup (wadaV3 ([(1 : ℝ)].map (fun x => x / maxAbs [1]))) ∧
    tableLookup (wadaV3 ([(1 : ℝ)].map (fun x => x / maxAbs [1]))) ≤ 100 := by
  have h := wada_snr_in_range [1] (by simp) (by norm_num [maxAbs_cons, maxAbs_nil])
  exact ⟨h.1, h.2 _ h.1⟩

/-! ## C5: scale invariance -/

/-- C5: scaling a non-empty, non-silent buffer by a positive constant
does not change the estimated SNR, because peak normalization cancels
the factor exactly. -/
theorem wada_snr_scale_invariant (wav : List ℝ) (c : ℝ) (hc : 0 < c)
    (hne : wav ≠ []) (hmax : maxAbs wav ≠ 0) :
    wada_snr (wav.map (fun x => c * x)) = wada_snr wav := by
  have hmapne : wav.map (fun x => c * x) ≠ [] := by
    simpa using hne
  have hm : maxAbs (wav.map fun x => c * x) = c * maxAbs wav :=
    maxAbs_map_mul c hc.le wav
  have hcm : c * maxAbs wav ≠ 0 := mul_ne_zero hc.ne' hmax
  unfold wada_snr
  rw [if_neg hmapne, if_neg hne, hm, if_neg hcm, if_neg hmax]
  congr 1
  rw [List.map_map]
  refine congrArg wadaCore ?_
  refine congrArg (fun f => List.map f wav) ?_
  funext x
  show c * x / (c * maxAbs wav) = x / maxAbs wav
  exact mul_div_mul_left x (maxAbs wav) hc.ne'

/-- Witness for C5: doubling the unit buffer. -/
theorem wada_snr_scale_invariant_witness :
    wada_snr ([(1 : ℝ)].map (fun x => 2 * x)) = wada_snr [1] :=
  wada_snr_scale_invariant [1] 2 (by norm_num) (by simp)
    (by norm_num [maxAbs_cons, maxAbs_nil])

/-! ## Evaluating `wada_snr` on the unit buffer -/

lemma mean_single (x : ℝ) : mean [x] = x := by
  unfold mean
  simp

lemma wadaAbsClip_one : wadaAbsClip [1] = [1] := by
  unfold wadaAbsClip
  simp only [List.map_cons, List.map_nil, abs_one]
  rw [if_neg (by norm_num [eps])]

lemma wadaV3_one : wadaV3 [1] = 0 := by
  unfold wadaV3
  rw [wadaAbsClip_one, mean_single, max_eq_right (by norm_num [eps] : eps ≤ (1 : ℝ)),
    Real.log_one]
  simp only [List.map_cons, List.map_nil, Real.log_one]
  rw [mean_single]
  ring

lemma tableLookup_zero : tableLookup 0 = -20 :=
  tableLookup_of_no_idx (fun i _ hlt => absurd hlt (not_lt.mpr (gval_nonneg i)))

lemma dEng_one : dEng [(1 : ℝ)] = 1 := by
  unfold dEng
  norm_num

lemma wada_snr_one : wada_snr [(1 : ℝ)] = some (-20) := by
  have h1 : maxAbs [(1 : ℝ)] = 1 := by norm_num [maxAbs_cons, maxAbs_nil]
  unfold wada_snr
  rw [if_neg (by simp), h1, if_neg one_ne_zero]
  have hmap : [(1 : ℝ)].map (fun x => x / 1) = [1] := by norm_num
  rw [hmap]
  unfold wadaCore
  rw [wadaV3_one, tableLookup_zero, dEng_one, finalSnr_eq 1 (-20) one_pos]

/-! ## Stage 1 lemmas -/

lemma snrStep_eq_some {thr : ℝ} {item : AudioItem} {r : AudioItem × ℝ}
    (h : snrStep thr item = some r) :
    r.1 = item ∧ itemSnr item = some r.2 ∧ thr ≤ r.2 := by
  cases hsnr : itemSnr item with
  | none =>
    simp only [snrStep, hsnr] at h
    exact Option.noConfusion h
  | some s =>
    simp only [snrStep, hsnr] at h
    by_cases hts : thr > s
    · simp only [if_pos hts] at h
      exact Option.noConfusion h
    · simp only [if_neg hts, Option.some.injEq] at h
      rw [← h]
      exact ⟨rfl, rfl, le_of_not_lt hts⟩

/-- C2: every record the SNR stage outputs has a defined (non-NaN) SNR
that is at least the threshold; NaN or below-threshold records are
dropped. -/
theorem snr_stage_output_filtered (thr : ℝ) (part : List AudioItem) :
    ∀ r ∈ analyze_wada_snr thr part, itemSnr r.1 = some r.2 ∧ thr ≤ r.2 := by
  intro r hr
  obtain ⟨item, hitem, hstep⟩ := List.mem_filterMap.mp hr
  obtain ⟨h1, h2, h3⟩ := snrStep_eq_some hstep
  rw [h1]
  exact ⟨h2, h3⟩

/-- A concrete record whose (preprocessed) audio is the unit buffer. -/
def itemTone : AudioItem :=
  { id := "id1", utt_id := "utt1", text := "text1",
    audio := RawAudio.oneD Dtype.float [1], sampling_rate := 16000,
    path := "path1" }

lemma itemSnr_itemTone : itemSnr itemTone = some (-20) := by
  unfold itemSnr
  have hpre : (preprocess_audio itemTone.audio).map (fun q => (q : ℝ)) =
      [(1 : ℝ)] := by
    simp [itemTone, preprocess_audio, scaleSamples]
  rw [hpre]
  exact wada_snr_one

/-- Witness for C2: the SNR stage at threshold −30 dB keeps the unit
buffer record, whose SNR evaluates to −20 dB. -/
theorem snr_stage_output_filtered_witness :
    itemSnr itemTone = some (-20) ∧ (-30 : ℝ) ≤ -20 := by
  have hstep : snrStep (-30) itemTone = some (itemTone, -20) := by
    unfold snrStep
    rw [itemSnr_itemTone]
    show (if (-30 : ℝ) > -20 then none else some (itemTone, (-20 : ℝ))) = _
    rw [if_neg (by norm_num : ¬ ((-30 : ℝ) > -20))]
  have hmem : (itemTone, (-20 : ℝ)) ∈ analyze_wada_snr (-30) [itemTone] := by
    unfold analyze_wada_snr
    simp only [List.filterMap_cons, hstep, List.filterMap_nil]
    exact List.mem_singleton.mpr rfl
  exact snr_stage_output_filtered (-30) [itemTone] (itemTone, -20) hmem

/-! ## C6: degenerate input -/

/-- C6: an empty buffer yields the NaN sentinel, a silent buffer does
too, and the SNR filter never outputs a record whose SNR is the
sentinel — degenerate input is filtered, not raised. -/
theorem wada_snr_degenerate :
    wada_snr [] = none ∧
    (∀ l : List ℝ, (∀ x ∈ l, x = 0) → wada_snr l = none) ∧
    (∀ (thr : ℝ) (part : List AudioItem) (item : AudioItem),
      itemSnr item = none → ∀ r ∈ analyze_wada_snr thr part, r.1 ≠ item) := by
  refine ⟨by unfold wada_snr; rw [if_pos rfl], ?_, ?_⟩
  · intro l h
    unfold wada_snr
    by_cases hl : l = []
    · rw [if_pos hl]
    · rw [if_neg hl, if_pos (maxAbs_eq_zero_of_all_zero h)]
  · intro thr part item hnone r hr heq
    obtain ⟨it2, hit2, hstep⟩ := List.mem_filterMap.mp hr
    obtain ⟨h1, h2, -⟩ := snrStep_eq_some hstep
    rw [h1.symm.trans heq, hnone] at h2
    exact Option.noConfusion h2

/-- Witness for C6: the empty buffer and the silent one-sample buffer
both produce the sentinel. -/
theorem wada_snr_degenerate_witness :
    wada_snr ([] : List ℝ) = none ∧ wada_snr [(0 : ℝ)] = none :=
  ⟨wada_snr_degenerate.1, wada_snr_degenerate.2.1 [0] (by simp)⟩

/-! ## C7: the quality stage -/

lemma mosStep_fst {predict : List ℚ → ℕ → Option ℝ} {thr : ℝ}
    {p : AudioItem × Option ℝ} {r : AudioItem × ℝ × ℝ}
    (h : mosStep predict thr p = some r) : r.1 = p.1 := by
  cases hp : p.2 with
  | none =>
    simp only [mosStep, hp] at h
    exact Option.noConfusion h
  | some s =>
    cases hpr : predict (preprocess_audio p.1.audio) p.1.sampling_rate with
    | none =>
      simp only [mosStep, hp, hpr] at h
      exact Option.noConfusion h
    | some score =>
      simp only [mosStep, hp, hpr] at h
      by_cases hsc : score ≥ thr
      · simp only [if_pos hsc, Option.some.injEq] at h
        rw [← h]
      · simp only [if_neg hsc] at h
        exact Option.noConfusion h

lemma mosStep_spec {predict : List ℚ → ℕ → Option ℝ} {thr : ℝ}
    {p : AudioItem × Option ℝ} {r : AudioItem × ℝ × ℝ}
    (h : mosStep predict thr p = some r) :
    thr ≤ r.2.2 ∧ p.2 = some r.2.1 ∧
    predict (preprocess_audio p.1.audio) p.1.sampling_rate = some r.2.2 := by
  cases hp : p.2 with
  | none =>
    simp only [mosStep, hp] at h
    exact Option.noConfusion h
  | some s =>
    cases hpr : predict (preprocess_audio p.1.audio) p.1.sampling_rate with
    | none =>
      simp only [mosStep, hp, hpr] at h
      exact Option.noConfusion h
    | some score =>
      simp only [mosStep, hp, hpr] at h
      by_cases hsc : score ≥ thr
      · simp only [if_pos hsc, Option.some.injEq] at h
        rw [← h]
        exact ⟨hsc, rfl, rfl⟩
      · simp only [if_neg hsc] at h
        exact Option.noConfusion h

lemma mosStep_some {predict : List ℚ → ℕ → Option ℝ} {thr : ℝ}
    {item : AudioItem} {s score : ℝ}
    (hpr : predict (preprocess_audio item.audio) item.sampling_rate = some score)
    (hsc : thr ≤ score) :
    mosStep predict thr (item, some s) = some (item, s, score) := by
  simp only [mosStep, hpr]
  rw [if_pos (show score ≥ thr from hsc)]

lemma filter_filterMap_comm {α β : Type _} (f : α → Option β) (p : α → Bool)
    (q : β → Bool) (hpq : ∀ a b, f a = some b → q b = p a) (l : List α) :
    (l.filterMap f).filter q = (l.filter p).filterMap f := by
  induction l with
  | nil => rfl
  | cons a t ih =>
    cases hfa : f a with
    | none =>
      cases hpa : p a with
      | false => simp [List.filterMap_cons, hfa, List.filter_cons, hpa, ih]
      | true => simp [List.filterMap_cons, hfa, List.filter_cons, hpa, ih]
    | some b =>
      have hqb : q b = p a := hpq a b hfa
      cases hpa : p a with
      | false =>
        rw [hpa] at hqb
        simp [List.filterMap_cons, hfa, List.filter_cons, hpa, hqb, ih]
      | true =>
        rw [hpa] at hqb
        simp [List.filterMap_cons, hfa, List.filter_cons, hpa, hqb, ih]

/-- C7: every record the quality stage outputs carries a score at least
the threshold; and a record that occurs exactly once in the stage's
input, with a defined SNR, whose predicted score clears the threshold,
occurs in the output exactly once, paired with that SNR and score. -/
theorem mos_stage_filter_spec (predict : List ℚ → ℕ → Option ℝ) (thr : ℝ)
    (part : List (AudioItem × Option ℝ)) :
    (∀ r ∈ analyze_mos predict thr part, thr ≤ r.2.2) ∧
    (∀ (item : AudioItem) (s score : ℝ),
      part.filter (fun p => decide (p.1 = item)) = [(item, some s)] →
      predict (preprocess_audio item.audio) item.sampling_rate = some score →
      thr ≤ score →
      (item, s, score) ∈ analyze_mos predict thr part ∧
      (analyze_mos predict thr part).filter (fun r => decide (r.1 = item)) =
        [(item, s, score)]) := by
  constructor
  · intro r hr
    obtain ⟨p, hp, hstep⟩ := List.mem_filterMap.mp hr
    exact (mosStep_spec hstep).1
  · intro item s score hfilter hpredict hscore
    have hcomm : (analyze_mos predict thr part).filter
        (fun r => decide (r.1 = item)) =
        (part.filter (fun p => decide (p.1 = item))).filterMap
          (mosStep predict thr) := by
      unfold analyze_mos
      exact filter_filterMap_comm _ _ _ (fun a b hab => by rw [mosStep_fst hab]) part
    rw [hfilter] at hcomm
    have hsingle : List.filterMap (mosStep predict thr) [(item, some s)] =
        [(item, s, score)] := by
      simp [List.filterMap_cons, mosStep_some hpredict hscore]
    rw [hsingle] at hcomm
    have hmem : (item, s, score) ∈ (analyze_mos predict thr part).filter
        (fun r => decide (r.1 = item)) := by
      rw [hcomm]
      exact List.mem_singleton.mpr rfl
    exact ⟨List.mem_of_mem_filter hmem, hcomm⟩

/-- Witness for C7: one record with SNR 5, scored 4 against threshold 3. -/
theorem mos_stage_filter_spec_witness :
    ((itemTone, (5 : ℝ), (4 : ℝ)) ∈
      analyze_mos (fun _ _ => some 4) 3 [(itemTone, some 5)]) ∧
    (analyze_mos (fun _ _ => some 4) 3 [(itemTone, some 5)]).filter
      (fun r => decide (r.1 = itemTone)) = [(itemTone, 5, 4)] :=
  (mos_stage_filter_spec (fun _ _ => some 4) 3 [(itemTone, some 5)]).2
    itemTone 5 4 (by simp) rfl (by norm_num)

end YodasCleansing
